import Mathlib

/- Verification of the poison-pill file-processing pipeline (src/main.py).
   Python strings are modelled as lists of characters; the dict-shaped file
   records are modelled as a fixed-shape structure; the shared FIFO queues
   carry `Option FileTask`, with `none` playing the role of the DONE sentinel
   (DONE = None in the source); functions that can raise are modelled with
   `Except`. -/

abbrev Str := List Char

def strOf (s : String) : Str := s.data

/-- Model of Python str.split for a one-character separator. -/
def splitOnChar (sep : Char) : Str → List Str
  | [] => [[]]
  | c :: rest =>
    if c = sep then [] :: splitOnChar sep rest
    else
      match splitOnChar sep rest with
      | [] => [[c]]
      | g :: gs => (c :: g) :: gs

/-- Model of Python s.rsplit(sep, 1)[-1]: the suffix after the last separator. -/
def pyRsplitLast (sep : Char) (s : Str) : Str :=
  (s.reverse.takeWhile (fun c => !(c == sep))).reverse

/-- Model of Python s.startswith for list-of-char strings (pattern first). -/
def startsWithStr : Str → Str → Bool
  | [], _ => true
  | _ :: _, [] => false
  | a :: as, b :: bs => a == b && startsWithStr as bs

/-- Fuelled worker for str.replace(old, "") with nonempty old = h :: tl. -/
def removeOccsF (h : Char) (tl : Str) : Nat → Str → Str
  | 0, s => s
  | _ + 1, [] => []
  | fuel + 1, c :: rest =>
    if startsWithStr (h :: tl) (c :: rest) then
      removeOccsF h tl fuel (rest.drop tl.length)
    else
      c :: removeOccsF h tl fuel rest

/-- Model of Python s.replace(old, "") (removal of occurrences, left to right). -/
def pyRemoveAll (old : Str) (s : Str) : Str :=
  match old with
  | [] => s
  | h :: tl => removeOccsF h tl s.length s

def braceChars : Str := [Char.ofNat 123, Char.ofNat 125]

/-- Model of Python s.strip(chars): drop leading and trailing characters of the set. -/
def pyStripChars (cs : Str) (s : Str) : Str :=
  ((s.dropWhile (fun c => cs.contains c)).reverse.dropWhile (fun c => cs.contains c)).reverse

/-- Value of a hexadecimal digit character; 16 for non-hex characters. -/
def hexVal (c : Char) : Nat :=
  if 48 ≤ c.toNat ∧ c.toNat ≤ 57 then c.toNat - 48
  else if 97 ≤ c.toNat ∧ c.toNat ≤ 102 then c.toNat - 87
  else if 65 ≤ c.toNat ∧ c.toNat ≤ 70 then c.toNat - 55
  else 16

/-- Model of Python int(s, 16) restricted to plain hexadecimal digit strings
(the only shapes reaching it here; signs, underscores and surrounding
whitespace that CPython's int would also accept are not modelled). -/
def parseHexNat (s : Str) : Option Nat :=
  if s ≠ [] ∧ s.all (fun c => decide (hexVal c < 16)) then
    some (s.foldl (fun a c => 16 * a + hexVal c) 0)
  else none

/-- Model of the CPython uuid.UUID(hex) constructor: remove urn:/uuid: markers,
strip braces, remove hyphens, then require exactly 32 hexadecimal digits; the
UUID value is the 128-bit integer. `none` models the raised ValueError. -/
def pyUUID (s : Str) : Option Nat :=
  let s1 := pyRemoveAll (strOf "urn:") s
  let s2 := pyRemoveAll (strOf "uuid:") s1
  let s3 := pyRemoveAll ['-'] (pyStripChars braceChars s2)
  if s3.length = 32 then parseHexNat s3 else none

/-- Lowercase hexadecimal digit character for d < 16. -/
def hexChar (d : Nat) : Char :=
  if d < 10 then Char.ofNat (48 + d) else Char.ofNat (87 + d)

/-- Little-endian hexadecimal digits (n of them) of u. -/
def toHexLE : Nat → Nat → Str
  | 0, _ => []
  | n + 1, u => hexChar (u % 16) :: toHexLE n (u / 16)

/-- Model of the 32 zero-padded lowercase hex digits of a 128-bit value. -/
def toHex32 (u : Nat) : Str := (toHexLE 32 u).reverse

/-- Model of str(uuid) for a 128-bit value: 8-4-4-4-12 hyphenated hex groups.
uuid4's version and variant bit-setting only fixes particular bits of the
random 128-bit value, so the draw is modelled as an arbitrary value below 2^128. -/
def uuidCanonical (u : Nat) : Str :=
  let h := toHex32 u
  h.take 8 ++ '-' :: (h.drop 8).take 4 ++ '-' :: (h.drop 12).take 4 ++
    '-' :: (h.drop 16).take 4 ++ '-' :: h.drop 20

/-- Checker for the canonical hyphenated UUID string shape. -/
def isCanonicalUUIDStr (s : Str) : Bool :=
  match splitOnChar '-' s with
  | [a, b, c, d, e] =>
    a.length == 8 && b.length == 4 && c.length == 4 && d.length == 4 && e.length == 12 &&
      (a ++ b ++ c ++ d ++ e).all (fun ch => decide (hexVal ch < 16))
  | _ => false

structure Tm where
  year : Nat
  mon : Nat
  mday : Nat
  hour : Nat
  minute : Nat
  second : Nat
deriving DecidableEq

def digitChar (d : Nat) : Char := Char.ofNat (48 + d)

def pad2 (k : Nat) : Str := [digitChar (k / 10 % 10), digitChar (k % 10)]

def pad4 (k : Nat) : Str :=
  [digitChar (k / 1000 % 10), digitChar (k / 100 % 10), digitChar (k / 10 % 10), digitChar (k % 10)]

/-- Model of time.strftime("%Y/%m/%d/%H/%M/%S") on a broken-down local time
(years in 1000..9999 render as four digits on every platform). -/
def strfTimestamp (t : Tm) : Str :=
  pad4 t.year ++ '/' :: pad2 t.mon ++ '/' :: pad2 t.mday ++ '/' :: pad2 t.hour ++
    '/' :: pad2 t.minute ++ '/' :: pad2 t.second

def isLeapYear (y : Nat) : Bool := (y % 4 == 0 && y % 100 != 0) || y % 400 == 0

def daysInMonth (y m : Nat) : Nat :=
  if m == 2 then (if isLeapYear y then 29 else 28)
  else if m == 4 || m == 6 || m == 9 || m == 11 then 30
  else 31

/-- Well-formed broken-down times, as produced by time.localtime and as
validated by the datetime constructor behind strptime. -/
def TmValid (t : Tm) : Prop :=
  1000 ≤ t.year ∧ t.year ≤ 9999 ∧ 1 ≤ t.mon ∧ t.mon ≤ 12 ∧
  1 ≤ t.mday ∧ t.mday ≤ daysInMonth t.year t.mon ∧
  t.hour ≤ 23 ∧ t.minute ≤ 59 ∧ t.second ≤ 59

instance (t : Tm) : Decidable (TmValid t) := by unfold TmValid; infer_instance

def parseDecNat (s : Str) : Option Nat :=
  if s ≠ [] ∧ s.all (fun c => decide (48 ≤ c.toNat ∧ c.toNat ≤ 57)) then
    some (s.foldl (fun a c => 10 * a + (c.toNat - 48)) 0)
  else none

/-- Model of datetime.strptime on the six already-split timestamp segments,
restricted to the canonical zero-padded widths the pipeline emits; the
datetime constructor's calendar validation is TmValid. -/
def parseTimestamp (segs : List Str) : Option Tm :=
  match segs with
  | [ys, mos, ds, hs, mis, ss] =>
    if ys.length = 4 ∧ mos.length = 2 ∧ ds.length = 2 ∧ hs.length = 2 ∧
        mis.length = 2 ∧ ss.length = 2 then
      match parseDecNat ys, parseDecNat mos, parseDecNat ds, parseDecNat hs,
          parseDecNat mis, parseDecNat ss with
      | some y, some mo, some d, some h, some mi, some s =>
        if TmValid ⟨y, mo, d, h, mi, s⟩ then some ⟨y, mo, d, h, mi, s⟩ else none
      | _, _, _, _, _, _ => none
    else none
  | _ => none

/-- Chronological order on broken-down times via a mixed-radix key. -/
def tmKey (t : Tm) : Nat :=
  ((((t.year * 13 + t.mon) * 32 + t.mday) * 24 + t.hour) * 60 + t.minute) * 60 + t.second

def tmLe (a b : Tm) : Prop := tmKey a ≤ tmKey b

inductive UploadId where
  | str (s : Str)
  | uuid (u : Nat)
deriving DecidableEq

structure FileTask where
  id : Nat
  name : Str
  src_bucket : Str
  src_key : Str
  dest_bucket : Str
  dest_key : Str
  meta : List (Str × Str)
  upload_id : UploadId
  status : Str
deriving DecidableEq

abbrev QItem := Option FileTask

/-- DONE sentinel (None in the source). -/
def DONE : QItem := none

def initialFile (i : Nat) (nm sk fid ty : String) : FileTask :=
  { id := i
    name := strOf nm
    src_bucket := strOf "src-bucket-proj"
    src_key := strOf sk
    dest_bucket := strOf "dest-bucket-proj"
    dest_key := []
    meta := [(strOf "fileId", strOf fid), (strOf "type", strOf ty)]
    upload_id := UploadId.str []
    status := strOf "READY" }

/-- Embedded FILES table from main.py. -/
def FILES : List FileTask :=
  [initialFile 1 "file_100.pdf" "project1/uuid1" "100" "project1",
   initialFile 2 "file_101.pdf" "project1/uuid2" "101" "project1",
   initialFile 3 "file_102.pdf" "project1/uuid3" "102" "project1",
   initialFile 4 "file_103.pdf" "project2/uuid4" "103" "project2",
   initialFile 5 "file_104.pdf" "project2/uuid5" "104" "project2",
   initialFile 6 "file_105.pdf" "project3/uuid6" "105" "project3",
   initialFile 7 "file_106.pdf" "project3/uuid7" "106" "project3",
   initialFile 8 "file_107.pdf" "project3/uuid8" "107" "project3"]

/-- Dispatcher: enqueue every file, in order, onto the s3 queue. -/
def dispatcher (files : List FileTask) : List QItem := files.map some

/-- copy_file_s3_s3, as a function of the local time sampled by strftime
during the call and of the uuid4 draw made during the call. -/
def copy_file_s3_s3 (t : Tm) (u : Nat) : Str :=
  strfTimestamp t ++ '/' :: uuidCanonical u

/-- upload_file_to_api: parse the UUID out of the last '/'-separated segment
of dest_key; the error models the ValueError raised by uuid.UUID. -/
def upload_file_to_api (f : FileTask) : Except Str Nat :=
  match pyUUID (pyRsplitLast '/' f.dest_key) with
  | some u => Except.ok u
  | none => Except.error (strOf "ValueError")

/-- Per-item body of s3_uploader: set dest_key from the copy, advance status. -/
def s3ProcessOne (t : Tm) (u : Nat) (f : FileTask) : FileTask :=
  { f with dest_key := copy_file_s3_s3 t u, status := strOf "S3_COPIED" }

/-- Transfer step under an environment giving each task its sampled time and draw. -/
def s3Step (env : FileTask → Tm × Nat) (f : FileTask) : FileTask :=
  s3ProcessOne (env f).1 (env f).2 f

/-- Per-item body of api_uploader: the status is set first, then the API call
is made; its result is stored in upload_id. -/
def apiProcessOne (f : FileTask) : Except Str FileTask :=
  let f1 := { f with status := strOf "API_UPLOADED" }
  match upload_file_to_api f1 with
  | Except.ok u => Except.ok { f1 with upload_id := UploadId.uuid u }
  | Except.error e => Except.error e

/-- Success result of the api stage on a good task. -/
def apiOkStep (f : FileTask) : FileTask :=
  { f with
    status := strOf "API_UPLOADED"
    upload_id := UploadId.uuid ((pyUUID (pyRsplitLast '/' f.dest_key)).getD 0) }

/-- Worker loop: dequeue until the sentinel, emitting the processed tasks the
worker puts on its output queue; the sentinel ends the loop at once. -/
def workerLoop (step : FileTask → FileTask) : List QItem → List FileTask
  | [] => []
  | none :: _ => []
  | some f :: rest => step f :: workerLoop step rest

/-- Worker loop for a fallible body: an uncaught failure aborts the worker. -/
def workerLoopE (step : FileTask → Except Str FileTask) : List QItem → Except Str (List FileTask)
  | [] => Except.ok []
  | none :: _ => Except.ok []
  | some f :: rest =>
    match step f with
    | Except.error e => Except.error e
    | Except.ok g => (workerLoopE step rest).map (fun out => g :: out)

/-- Queue items a worker dequeues before (and including) its terminating sentinel. -/
def consumedItems : List QItem → List QItem
  | [] => []
  | none :: _ => [none]
  | some f :: rest => some f :: consumedItems rest

structure Report where
  expected : Nat
  processed : Nat
  success : Nat
  failed : Nat
  missing : Nat
deriving DecidableEq

def isSuccessStatus (f : FileTask) : Bool := f.status == strOf "API_UPLOADED"

/-- Tasks the verifier collects from its queue before the sentinel. -/
def drainUntilDone : List QItem → List FileTask
  | [] => []
  | none :: _ => []
  | some f :: rest => f :: drainUntilDone rest

/-- Verifier report over the received tasks. -/
def verifier (expected_count : Nat) (received : List FileTask) : Report :=
  { expected := expected_count
    processed := received.length
    success := (received.filter isSuccessStatus).length
    failed := (received.filter (fun f => !(isSuccessStatus f))).length
    missing := expected_count - received.length }

def s3_workers : List Str := [strOf "S3-Worker-1", strOf "S3-Worker-2", strOf "S3-Worker-3"]

def api_workers : List Str := [strOf "API-Worker-1", strOf "API-Worker-2"]

/-- One multi-worker stage execution: the queue holds all tasks before any
sentinel (every producer finished first), FIFO dequeues partition the tasks
among the k workers, each worker's dequeue stream ends with its one sentinel,
and the output queue is some interleaving of the workers' outputs. -/
def StageRun (step : FileTask → FileTask) (k : Nat) (ts out : List FileTask) : Prop :=
  ∃ P : List (List FileTask), P.length = k ∧ List.Perm P.flatten ts ∧
    List.Perm out (P.map (fun w => workerLoop step (w.map some ++ [none]))).flatten

/-- One multi-worker stage execution of the fallible api stage, in the case
where every worker ran to its sentinel without an uncaught failure. -/
def StageRunE (step : FileTask → Except Str FileTask) (k : Nat) (ts out : List FileTask) : Prop :=
  ∃ P : List (List FileTask), ∃ outs : List (List FileTask),
    P.length = k ∧ List.Perm P.flatten ts ∧
    List.Forall₂ (fun w o => workerLoopE step (w.map some ++ [none]) = Except.ok o) P outs ∧
    List.Perm out outs.flatten

/-- Complete pipeline execution following the shutdown protocol. -/
def PipelineRun (env : FileTask → Tm × Nat) (files received : List FileTask) : Prop :=
  ∃ mid : List FileTask,
    StageRun (s3Step env) s3_workers.length files mid ∧
    StageRunE apiProcessOne api_workers.length mid received

inductive QueueId where
  | s3q
  | apiq
  | verifyq
deriving DecidableEq

inductive Event where
  | joinDispatcher
  | putDone (q : QueueId)
  | joinPoolS3
  | joinPoolApi
  | joinVerifier
deriving DecidableEq

/-- Module-level shutdown sequence of main.py (lines 172-193). -/
def shutdownTrace : List Event :=
  [Event.joinDispatcher] ++
  List.replicate s3_workers.length (Event.putDone QueueId.s3q) ++
  [Event.joinPoolS3] ++
  List.replicate api_workers.length (Event.putDone QueueId.apiq) ++
  [Event.joinPoolApi] ++
  [Event.putDone QueueId.verifyq] ++
  [Event.joinVerifier]

/-- Position of a status in the pipeline's forward chain (the spec's
TRANSFERRED and REGISTERED are the code's S3_COPIED and API_UPLOADED). -/
def statusRank (s : Str) : Nat :=
  if s == strOf "READY" then 0
  else if s == strOf "S3_COPIED" then 1
  else if s == strOf "API_UPLOADED" then 2
  else 3

theorem takeWhile_append_all (p : Char → Bool) (xs ys : Str) (h : ∀ x ∈ xs, p x = true) :
    (xs ++ ys).takeWhile p = xs ++ ys.takeWhile p := by
  induction xs with
  | nil => simp
  | cons a as ih =>
    have ha : p a = true := h a (List.mem_cons_self a as)
    simp [List.takeWhile_cons, ha, ih (fun x hx => h x (List.mem_cons_of_mem a hx))]

theorem pyRsplitLast_append (sep : Char) (a b : Str) (hb : sep ∉ b) :
    pyRsplitLast sep (a ++ sep :: b) = b := by
  unfold pyRsplitLast
  have h1 : (a ++ sep :: b).reverse = b.reverse ++ sep :: a.reverse := by
    simp
  rw [h1, takeWhile_append_all _ b.reverse _ ?_]
  · have : (sep :: a.reverse).takeWhile (fun c => !(c == sep)) = [] := by
      simp [List.takeWhile_cons]
    rw [this]
    simp
  · intro x hx
    have : x ≠ sep := fun e => hb (e ▸ (List.mem_reverse.mp hx))
    simp [this]

theorem splitOnChar_no_sep (sep : Char) (s : Str) (h : sep ∉ s) :
    splitOnChar sep s = [s] := by
  induction s with
  | nil => rfl
  | cons c rest ih =>
    have hc : ¬ c = sep := fun e => h (e ▸ List.mem_cons_self c rest)
    have hr := ih (fun hm => h (List.mem_cons_of_mem c hm))
    unfold splitOnChar
    rw [if_neg hc, hr]

theorem splitOnChar_append (sep : Char) (a b : Str) (h : sep ∉ a) :
    splitOnChar sep (a ++ sep :: b) = a :: splitOnChar sep b := by
  induction a with
  | nil => simp [splitOnChar]
  | cons c as ih =>
    have hc : ¬ c = sep := fun e => h (e ▸ List.mem_cons_self c as)
    have hr := ih (fun hm => h (List.mem_cons_of_mem c hm))
    simp only [List.cons_append]
    conv_lhs => rw [splitOnChar]
    rw [if_neg hc, hr]

theorem removeOccsF_not_mem (h : Char) (tl : Str) (fuel : Nat) (s : Str) (hs : h ∉ s) :
    removeOccsF h tl fuel s = s := by
  induction fuel generalizing s with
  | zero => rfl
  | succ n ih =>
    cases s with
    | nil => rfl
    | cons c rest =>
      have hc : (h == c) = false := by
        simp only [beq_eq_false_iff_ne, ne_eq]
        intro e
        exact hs (e ▸ List.mem_cons_self c rest)
      have hstart : startsWithStr (h :: tl) (c :: rest) = false := by
        unfold startsWithStr
        simp [hc]
      unfold removeOccsF
      rw [hstart]
      simp only [Bool.false_eq_true, if_false]
      rw [ih rest (fun hm => hs (List.mem_cons_of_mem c hm))]

theorem removeOccsF_single (c0 : Char) (fuel : Nat) (s : Str) (hf : s.length ≤ fuel) :
    removeOccsF c0 [] fuel s = s.filter (fun x => !(x == c0)) := by
  induction fuel generalizing s with
  | zero =>
    cases s with
    | nil => rfl
    | cons c rest => simp at hf
  | succ n ih =>
    cases s with
    | nil => rfl
    | cons c rest =>
      have hr : rest.length ≤ n := by
        simp only [List.length_cons] at hf
        omega
      have hstart : startsWithStr (c0 :: []) (c :: rest) = (c0 == c) := by
        show (c0 == c && startsWithStr [] rest) = (c0 == c)
        rw [show startsWithStr [] rest = true from rfl, Bool.and_true]
      unfold removeOccsF
      rw [hstart]
      by_cases h : c0 = c
      · subst h
        simp only [beq_self_eq_true, if_true, List.length_nil, List.drop_zero]
        rw [ih rest hr]
        simp [List.filter_cons]
      · have hb : (c0 == c) = false := by simp [h]
        rw [hb]
        simp only [Bool.false_eq_true, if_false]
        rw [ih rest hr]
        have : (c == c0) = false := by
          simp only [beq_eq_false_iff_ne, ne_eq]
          exact fun e => h e.symm
        simp [List.filter_cons, this]

theorem dropWhile_all_false (p : Char → Bool) (s : Str) (hs : ∀ x ∈ s, p x = false) :
    s.dropWhile p = s := by
  cases s with
  | nil => rfl
  | cons a as => simp [List.dropWhile_cons, hs a (List.mem_cons_self a as)]

theorem pyStripChars_id (cs s : Str) (hs : ∀ x ∈ s, cs.contains x = false) :
    pyStripChars cs s = s := by
  unfold pyStripChars
  rw [dropWhile_all_false _ s hs]
  rw [dropWhile_all_false _ s.reverse (fun x hx => hs x (List.mem_reverse.mp hx))]
  exact List.reverse_reverse s

theorem hexVal_hexChar (d : Nat) (hd : d < 16) : hexVal (hexChar d) = d := by
  interval_cases d <;> decide

theorem toHexLE_length (n u : Nat) : (toHexLE n u).length = n := by
  induction n generalizing u with
  | zero => rfl
  | succ m ih => simp [toHexLE, ih]

theorem toHex32_length (u : Nat) : (toHex32 u).length = 32 := by
  simp [toHex32, toHexLE_length]

theorem toHexLE_all_hex (n u : Nat) : ∀ c ∈ toHexLE n u, hexVal c < 16 := by
  induction n generalizing u with
  | zero => intro c hc; simp [toHexLE] at hc
  | succ m ih =>
    intro c hc
    simp only [toHexLE, List.mem_cons] at hc
    rcases hc with h | h
    · subst h
      rw [hexVal_hexChar (u % 16) (Nat.mod_lt _ (by norm_num))]
      exact Nat.mod_lt _ (by norm_num)
    · exact ih (u / 16) c h

theorem toHex32_all_hex (u : Nat) : ∀ c ∈ toHex32 u, hexVal c < 16 := by
  intro c hc
  rw [toHex32, List.mem_reverse] at hc
  exact toHexLE_all_hex 32 u c hc

theorem mod_hex_succ (u m : Nat) : u % 16 ^ (m + 1) = 16 * (u / 16 % 16 ^ m) + u % 16 := by
  have h0 : 0 < (16 : Nat) ^ m := pow_pos (by norm_num) m
  have hqp : u / 16 % 16 ^ m < 16 ^ m := Nat.mod_lt _ h0
  have hr : u % 16 < 16 := Nat.mod_lt _ (by norm_num)
  have e1 : 16 * (u / 16) + u % 16 = u := Nat.div_add_mod u 16
  have e2 : 16 ^ m * (u / 16 / 16 ^ m) + u / 16 % 16 ^ m = u / 16 := Nat.div_add_mod _ _
  have epow : (16 : Nat) ^ (m + 1) = 16 * 16 ^ m := by ring
  calc u % 16 ^ (m + 1)
      = (16 * (16 ^ m * (u / 16 / 16 ^ m) + u / 16 % 16 ^ m) + u % 16) % (16 * 16 ^ m) := by
        rw [e2, e1, epow]
    _ = (16 * (u / 16 % 16 ^ m) + u % 16 + 16 * 16 ^ m * (u / 16 / 16 ^ m)) % (16 * 16 ^ m) := by
        congr 1
        ring
    _ = (16 * (u / 16 % 16 ^ m) + u % 16) % (16 * 16 ^ m) := Nat.add_mul_mod_self_left _ _ _
    _ = 16 * (u / 16 % 16 ^ m) + u % 16 := Nat.mod_eq_of_lt (by omega)

theorem foldl_hex_toHexLE (n u : Nat) :
    (toHexLE n u).reverse.foldl (fun a c => 16 * a + hexVal c) 0 = u % 16 ^ n := by
  induction n generalizing u with
  | zero => simp [toHexLE, Nat.mod_one]
  | succ m ih =>
    have hd : hexVal (hexChar (u % 16)) = u % 16 := hexVal_hexChar _ (Nat.mod_lt _ (by norm_num))
    simp only [toHexLE, List.reverse_cons, List.foldl_append, ih (u / 16), List.foldl_cons,
      List.foldl_nil]
    rw [hd, mod_hex_succ]

theorem parseHexNat_toHex32 (u : Nat) (hu : u < 2 ^ 128) : parseHexNat (toHex32 u) = some u := by
  have hlen := toHex32_length u
  have hne : toHex32 u ≠ [] := by
    intro h
    rw [h] at hlen
    simp at hlen
  have hall : (toHex32 u).all (fun c => decide (hexVal c < 16)) = true := by
    rw [List.all_eq_true]
    intro c hc
    simpa using toHex32_all_hex u c hc
  have hmod : u % 16 ^ 32 = u := Nat.mod_eq_of_lt (by
    calc u < 2 ^ 128 := hu
      _ = 16 ^ 32 := by norm_num)
  unfold parseHexNat
  rw [if_pos ⟨hne, hall⟩, toHex32, foldl_hex_toHexLE, hmod]

theorem toHex32_inj (u v : Nat) (hu : u < 2 ^ 128) (hv : v < 2 ^ 128)
    (h : toHex32 u = toHex32 v) : u = v := by
  have h1 := parseHexNat_toHex32 u hu
  have h2 := parseHexNat_toHex32 v hv
  rw [h, h2] at h1
  exact ((Option.some.injEq v u).mp h1).symm

theorem uuidCanonical_chars (u : Nat) (c : Char) (hc : c ∈ uuidCanonical u) :
    hexVal c < 16 ∨ c = '-' := by
  have hx : ∀ d ∈ toHex32 u, hexVal d < 16 := toHex32_all_hex u
  simp only [uuidCanonical, List.mem_append, List.mem_cons] at hc
  rcases hc with (((h | h | h) | h | h) | h | h) | h | h
  · exact Or.inl (hx c (List.mem_of_mem_take h))
  · exact Or.inr h
  · exact Or.inl (hx c (List.mem_of_mem_drop (List.mem_of_mem_take h)))
  · exact Or.inr h
  · exact Or.inl (hx c (List.mem_of_mem_drop (List.mem_of_mem_take h)))
  · exact Or.inr h
  · exact Or.inl (hx c (List.mem_of_mem_drop (List.mem_of_mem_take h)))
  · exact Or.inr h
  · exact Or.inl (hx c (List.mem_of_mem_drop h))

theorem uuidCanonical_no_char (u : Nat) (c : Char) (hval : 16 ≤ hexVal c) (hdash : c ≠ '-') :
    c ∉ uuidCanonical u := by
  intro hc
  rcases uuidCanonical_chars u c hc with h | h
  · omega
  · exact hdash h

theorem take_drop_reassemble (h : Str) :
    h.take 8 ++ ((h.drop 8).take 4 ++ ((h.drop 12).take 4 ++ ((h.drop 16).take 4 ++ h.drop 20))) =
      h := by
  have e16 : (h.drop 16).take 4 ++ h.drop 20 = h.drop 16 := by
    have := List.take_append_drop 4 (h.drop 16)
    rwa [List.drop_drop, show 4 + 16 = 20 from rfl] at this
  have e12 : (h.drop 12).take 4 ++ h.drop 16 = h.drop 12 := by
    have := List.take_append_drop 4 (h.drop 12)
    rwa [List.drop_drop, show 4 + 12 = 16 from rfl] at this
  have e8 : (h.drop 8).take 4 ++ h.drop 12 = h.drop 8 := by
    have := List.take_append_drop 4 (h.drop 8)
    rwa [List.drop_drop, show 4 + 8 = 12 from rfl] at this
  rw [e16, e12, e8]
  exact List.take_append_drop 8 h

theorem filter_uuidCanonical (u : Nat) :
    (uuidCanonical u).filter (fun x => !(x == '-')) = toHex32 u := by
  have hx : ∀ d ∈ toHex32 u, (!(d == '-')) = true := by
    intro d hd
    have h1 : hexVal d < 16 := toHex32_all_hex u d hd
    have : d ≠ '-' := by
      intro e
      rw [e] at h1
      revert h1
      decide
    simp [this]
  have hsub : ∀ (n m : Nat), List.filter (fun x => !(x == '-')) (((toHex32 u).drop n).take m) =
      ((toHex32 u).drop n).take m := by
    intro n m
    rw [List.filter_eq_self]
    intro a ha
    exact hx a (List.mem_of_mem_drop (List.mem_of_mem_take ha))
  have htake : List.filter (fun x => !(x == '-')) ((toHex32 u).take 8) = (toHex32 u).take 8 := by
    rw [List.filter_eq_self]
    intro a ha
    exact hx a (List.mem_of_mem_take ha)
  have hdrop : List.filter (fun x => !(x == '-')) ((toHex32 u).drop 20) = (toHex32 u).drop 20 := by
    rw [List.filter_eq_self]
    intro a ha
    exact hx a (List.mem_of_mem_drop ha)
  show ((toHex32 u).take 8 ++ '-' :: ((toHex32 u).drop 8).take 4 ++
      '-' :: ((toHex32 u).drop 12).take 4 ++ '-' :: ((toHex32 u).drop 16).take 4 ++
      '-' :: (toHex32 u).drop 20).filter (fun x => !(x == '-')) = toHex32 u
  simp only [List.filter_append, List.filter_cons, show (!('-' == '-')) = false from rfl,
    Bool.false_eq_true, if_false, htake, hsub, hdrop]
  exact take_drop_reassemble (toHex32 u)

theorem uuidCanonical_strip (u : Nat) :
    pyStripChars braceChars (uuidCanonical u) = uuidCanonical u := by
  apply pyStripChars_id
  intro x hx
  rcases uuidCanonical_chars u x hx with h | h
  · have h1 : x ≠ Char.ofNat 123 := by
      intro e
      rw [e] at h
      revert h
      decide
    have h2 : x ≠ Char.ofNat 125 := by
      intro e
      rw [e] at h
      revert h
      decide
    simp [braceChars, h1, h2]
  · subst h
    decide

theorem pyRemoveAll_cons_not_mem (h : Char) (tl s : Str) (hs : h ∉ s) :
    pyRemoveAll (h :: tl) s = s :=
  removeOccsF_not_mem h tl s.length s hs

theorem pyRemoveAll_dash (u : Nat) :
    pyRemoveAll ['-'] (uuidCanonical u) = toHex32 u := by
  show removeOccsF '-' [] (uuidCanonical u).length (uuidCanonical u) = toHex32 u
  rw [removeOccsF_single '-' _ _ (le_refl _), filter_uuidCanonical]

theorem pyUUID_uuidCanonical (u : Nat) (hu : u < 2 ^ 128) :
    pyUUID (uuidCanonical u) = some u := by
  have hu1 : 'u' ∉ uuidCanonical u := uuidCanonical_no_char u 'u' (by decide) (by decide)
  have h1 : pyRemoveAll (strOf "urn:") (uuidCanonical u) = uuidCanonical u := by
    have e : strOf "urn:" = 'u' :: strOf "rn:" := by decide
    rw [e]
    exact pyRemoveAll_cons_not_mem _ _ _ hu1
  have h2 : pyRemoveAll (strOf "uuid:") (uuidCanonical u) = uuidCanonical u := by
    have e : strOf "uuid:" = 'u' :: strOf "uid:" := by decide
    rw [e]
    exact pyRemoveAll_cons_not_mem _ _ _ hu1
  show (if (pyRemoveAll ['-'] (pyStripChars braceChars
      (pyRemoveAll (strOf "uuid:") (pyRemoveAll (strOf "urn:") (uuidCanonical u))))).length = 32
    then parseHexNat (pyRemoveAll ['-'] (pyStripChars braceChars
      (pyRemoveAll (strOf "uuid:") (pyRemoveAll (strOf "urn:") (uuidCanonical u)))))
    else none) = some u
  rw [h1, h2, uuidCanonical_strip, pyRemoveAll_dash]
  rw [if_pos (toHex32_length u)]
  exact parseHexNat_toHex32 u hu

theorem uuidCanonical_inj (u v : Nat) (hu : u < 2 ^ 128) (hv : v < 2 ^ 128)
    (h : uuidCanonical u = uuidCanonical v) : u = v := by
  have h1 := pyUUID_uuidCanonical u hu
  have h2 := pyUUID_uuidCanonical v hv
  rw [h, h2] at h1
  exact ((Option.some.injEq v u).mp h1).symm

theorem pyRsplitLast_copy (t : Tm) (u : Nat) :
    pyRsplitLast '/' (copy_file_s3_s3 t u) = uuidCanonical u := by
  unfold copy_file_s3_s3
  exact pyRsplitLast_append '/' _ _ (uuidCanonical_no_char u '/' (by decide) (by decide))

theorem digitChar_toNat (d : Nat) (hd : d < 10) : (digitChar d).toNat = 48 + d := by
  interval_cases d <;> decide

theorem digitChar_ne_slash (d : Nat) (hd : d < 10) : digitChar d ≠ '/' := by
  interval_cases d <;> decide

theorem slash_not_mem_pad2 (k : Nat) : '/' ∉ pad2 k := by
  intro h
  simp only [pad2, List.mem_cons, List.not_mem_nil, or_false] at h
  rcases h with h | h
  · exact digitChar_ne_slash _ (Nat.mod_lt _ (by norm_num)) h.symm
  · exact digitChar_ne_slash _ (Nat.mod_lt _ (by norm_num)) h.symm

theorem slash_not_mem_pad4 (k : Nat) : '/' ∉ pad4 k := by
  intro h
  simp only [pad4, List.mem_cons, List.not_mem_nil, or_false] at h
  rcases h with h | h | h | h <;>
    exact digitChar_ne_slash _ (Nat.mod_lt _ (by norm_num)) h.symm

theorem split_copy (t : Tm) (u : Nat) :
    splitOnChar '/' (copy_file_s3_s3 t u) =
      [pad4 t.year, pad2 t.mon, pad2 t.mday, pad2 t.hour, pad2 t.minute, pad2 t.second,
        uuidCanonical u] := by
  have hns : '/' ∉ uuidCanonical u := uuidCanonical_no_char u '/' (by decide) (by decide)
  show splitOnChar '/' ((pad4 t.year ++ '/' :: pad2 t.mon ++ '/' :: pad2 t.mday ++
      '/' :: pad2 t.hour ++ '/' :: pad2 t.minute ++ '/' :: pad2 t.second) ++
      '/' :: uuidCanonical u) = _
  simp only [List.append_assoc, List.cons_append]
  rw [splitOnChar_append '/' _ _ (slash_not_mem_pad4 t.year),
    splitOnChar_append '/' _ _ (slash_not_mem_pad2 t.mon),
    splitOnChar_append '/' _ _ (slash_not_mem_pad2 t.mday),
    splitOnChar_append '/' _ _ (slash_not_mem_pad2 t.hour),
    splitOnChar_append '/' _ _ (slash_not_mem_pad2 t.minute),
    splitOnChar_append '/' _ _ (slash_not_mem_pad2 t.second),
    splitOnChar_no_sep '/' _ hns]

theorem parseDecNat_pad2 (k : Nat) (hk : k < 100) : parseDecNat (pad2 k) = some k := by
  have h1 : k / 10 % 10 < 10 := Nat.mod_lt _ (by norm_num)
  have h2 : k % 10 < 10 := Nat.mod_lt _ (by norm_num)
  have e1 : (digitChar (k / 10 % 10)).toNat = 48 + k / 10 % 10 := digitChar_toNat _ h1
  have e2 : (digitChar (k % 10)).toNat = 48 + k % 10 := digitChar_toNat _ h2
  unfold parseDecNat
  rw [if_pos]
  · simp only [pad2, List.foldl_cons, List.foldl_nil, e1, e2, Option.some.injEq]
    omega
  · refine ⟨by simp [pad2], ?_⟩
    simp only [pad2, List.all_cons, List.all_nil, Bool.and_true, Bool.and_eq_true,
      decide_eq_true_eq, e1, e2]
    omega

theorem parseDecNat_pad4 (k : Nat) (hk : k < 10000) : parseDecNat (pad4 k) = some k := by
  have h1 : k / 1000 % 10 < 10 := Nat.mod_lt _ (by norm_num)
  have h2 : k / 100 % 10 < 10 := Nat.mod_lt _ (by norm_num)
  have h3 : k / 10 % 10 < 10 := Nat.mod_lt _ (by norm_num)
  have h4 : k % 10 < 10 := Nat.mod_lt _ (by norm_num)
  have e1 : (digitChar (k / 1000 % 10)).toNat = 48 + k / 1000 % 10 := digitChar_toNat _ h1
  have e2 : (digitChar (k / 100 % 10)).toNat = 48 + k / 100 % 10 := digitChar_toNat _ h2
  have e3 : (digitChar (k / 10 % 10)).toNat = 48 + k / 10 % 10 := digitChar_toNat _ h3
  have e4 : (digitChar (k % 10)).toNat = 48 + k % 10 := digitChar_toNat _ h4
  unfold parseDecNat
  rw [if_pos]
  · simp only [pad4, List.foldl_cons, List.foldl_nil, e1, e2, e3, e4, Option.some.injEq]
    omega
  · refine ⟨by simp [pad4], ?_⟩
    simp only [pad4, List.all_cons, List.all_nil, Bool.and_true, Bool.and_eq_true,
      decide_eq_true_eq, e1, e2, e3, e4]
    omega

theorem parseTimestamp_strf (t : Tm) (hv : TmValid t) :
    parseTimestamp
      [pad4 t.year, pad2 t.mon, pad2 t.mday, pad2 t.hour, pad2 t.minute, pad2 t.second] =
      some t := by
  obtain ⟨h1, h2, h3, h4, h5, h6, h7, h8, h9⟩ := hv
  have hy : parseDecNat (pad4 t.year) = some t.year := parseDecNat_pad4 _ (by omega)
  have hmo : parseDecNat (pad2 t.mon) = some t.mon := parseDecNat_pad2 _ (by omega)
  have hd : parseDecNat (pad2 t.mday) = some t.mday := by
    refine parseDecNat_pad2 _ ?_
    have : daysInMonth t.year t.mon ≤ 31 := by
      unfold daysInMonth
      split
      · split <;> omega
      · split <;> omega
    omega
  have hh : parseDecNat (pad2 t.hour) = some t.hour := parseDecNat_pad2 _ (by omega)
  have hmi : parseDecNat (pad2 t.minute) = some t.minute := parseDecNat_pad2 _ (by omega)
  have hs : parseDecNat (pad2 t.second) = some t.second := parseDecNat_pad2 _ (by omega)
  have heta : (⟨t.year, t.mon, t.mday, t.hour, t.minute, t.second⟩ : Tm) = t := rfl
  simp only [parseTimestamp]
  rw [if_pos ⟨rfl, rfl, rfl, rfl, rfl, rfl⟩]
  simp only [hy, hmo, hd, hh, hmi, hs]
  rw [heta, if_pos ⟨h1, h2, h3, h4, h5, h6, h7, h8, h9⟩]

theorem isCanonicalUUIDStr_canon (u : Nat) : isCanonicalUUIDStr (uuidCanonical u) = true := by
  have hx : ∀ d ∈ toHex32 u, hexVal d < 16 := toHex32_all_hex u
  have hdash : ∀ (n m : Nat), '-' ∉ ((toHex32 u).drop n).take m := by
    intro n m hmem
    have := hx '-' (List.mem_of_mem_drop (List.mem_of_mem_take hmem))
    revert this
    decide
  have hdash8 : '-' ∉ (toHex32 u).take 8 := by
    intro hmem
    have := hx '-' (List.mem_of_mem_take hmem)
    revert this
    decide
  have hdash20 : '-' ∉ (toHex32 u).drop 20 := by
    intro hmem
    have := hx '-' (List.mem_of_mem_drop hmem)
    revert this
    decide
  have hsplit : splitOnChar '-' (uuidCanonical u) =
      [(toHex32 u).take 8, ((toHex32 u).drop 8).take 4, ((toHex32 u).drop 12).take 4,
        ((toHex32 u).drop 16).take 4, (toHex32 u).drop 20] := by
    unfold uuidCanonical
    simp only [List.append_assoc, List.cons_append]
    rw [splitOnChar_append '-' _ _ hdash8,
      splitOnChar_append '-' _ _ (hdash 8 4),
      splitOnChar_append '-' _ _ (hdash 12 4),
      splitOnChar_append '-' _ _ (hdash 16 4),
      splitOnChar_no_sep '-' _ hdash20]
  have hlen := toHex32_length u
  simp only [isCanonicalUUIDStr]
  rw [hsplit]
  simp only [List.length_take, List.length_drop, hlen]
  simp
  exact ⟨fun x h => hx x (List.mem_of_mem_take h),
    fun x h => hx x (List.mem_of_mem_drop (List.mem_of_mem_take h)),
    fun x h => hx x (List.mem_of_mem_drop (List.mem_of_mem_take h)),
    fun x h => hx x (List.mem_of_mem_drop (List.mem_of_mem_take h)),
    fun x h => hx x (List.mem_of_mem_drop h)⟩

theorem workerLoop_eq (step : FileTask → FileTask) (ts : List FileTask) (rest : List QItem) :
    workerLoop step (ts.map some ++ none :: rest) = ts.map step := by
  induction ts with
  | nil => rfl
  | cons a l ih => simp [workerLoop, ih]

theorem consumedItems_eq (ts : List FileTask) (rest : List QItem) :
    consumedItems (ts.map some ++ none :: rest) = ts.map some ++ [none] := by
  induction ts with
  | nil => rfl
  | cons a l ih => simp [consumedItems, ih]

theorem consumedItems_one_none (ts : List FileTask) (rest : List QItem) :
    (consumedItems (ts.map some ++ none :: rest)).count none = 1 := by
  rw [consumedItems_eq, List.count_append]
  have h0 : (ts.map some).count (none : QItem) = 0 := by
    rw [List.count_eq_zero]
    intro hmem
    obtain ⟨f, _, hf⟩ := List.mem_map.mp hmem
    cases hf
  rw [h0]
  rfl

theorem drainUntilDone_eq (ts : List FileTask) (rest : List QItem) :
    drainUntilDone (ts.map some ++ none :: rest) = ts := by
  induction ts with
  | nil => rfl
  | cons a l ih => simp [drainUntilDone, ih]

theorem workerLoopE_ok (step : FileTask → Except Str FileTask) (g : FileTask → FileTask)
    (ts : List FileTask) (rest : List QItem) (h : ∀ f ∈ ts, step f = Except.ok (g f)) :
    workerLoopE step (ts.map some ++ none :: rest) = Except.ok (ts.map g) := by
  induction ts with
  | nil => rfl
  | cons a l ih =>
    show (match step a with
      | Except.error e => Except.error e
      | Except.ok g0 => (workerLoopE step (l.map some ++ none :: rest)).map
          (fun out => g0 :: out)) = Except.ok ((a :: l).map g)
    rw [h a (List.mem_cons_self a l), ih (fun f hf => h f (List.mem_cons_of_mem a hf))]
    rfl

theorem apiProcessOne_ok_of_parse (f : FileTask) (u : Nat)
    (hu : pyUUID (pyRsplitLast '/' f.dest_key) = some u) :
    apiProcessOne f = Except.ok (apiOkStep f) := by
  simp only [apiProcessOne, upload_file_to_api, apiOkStep]
  rw [hu]
  simp

theorem apiProcessOne_error_of_parse (f : FileTask)
    (hu : pyUUID (pyRsplitLast '/' f.dest_key) = none) :
    apiProcessOne f = Except.error (strOf "ValueError") := by
  simp only [apiProcessOne, upload_file_to_api]
  rw [hu]

theorem apiProcessOne_cases (f : FileTask) :
    (∃ u, pyUUID (pyRsplitLast '/' f.dest_key) = some u ∧
      apiProcessOne f = Except.ok (apiOkStep f)) ∨
    (pyUUID (pyRsplitLast '/' f.dest_key) = none ∧
      apiProcessOne f = Except.error (strOf "ValueError")) := by
  cases hu : pyUUID (pyRsplitLast '/' f.dest_key) with
  | none => exact Or.inr ⟨rfl, apiProcessOne_error_of_parse f hu⟩
  | some u => exact Or.inl ⟨u, rfl, apiProcessOne_ok_of_parse f u hu⟩

theorem apiProcessOne_ok_shape (f g : FileTask) (h : apiProcessOne f = Except.ok g) :
    g = apiOkStep f := by
  rcases apiProcessOne_cases f with ⟨u, _, he⟩ | ⟨_, he⟩
  · rw [he] at h
    injection h with h
    exact h.symm
  · rw [he] at h
    cases h

theorem apiOkStep_upload_id (f : FileTask) (u : Nat)
    (hu : pyUUID (pyRsplitLast '/' f.dest_key) = some u) :
    (apiOkStep f).upload_id = UploadId.uuid u := by
  simp [apiOkStep, hu]

theorem apiOkStep_status (f : FileTask) : (apiOkStep f).status = strOf "API_UPLOADED" := rfl

theorem s3Step_dest_key (env : FileTask → Tm × Nat) (f : FileTask) :
    (s3Step env f).dest_key = copy_file_s3_s3 (env f).1 (env f).2 := rfl

theorem s3Step_good (env : FileTask → Tm × Nat) (henv : ∀ f, (env f).2 < 2 ^ 128)
    (f : FileTask) :
    pyUUID (pyRsplitLast '/' (s3Step env f).dest_key) = some (env f).2 := by
  rw [s3Step_dest_key, pyRsplitLast_copy]
  exact pyUUID_uuidCanonical _ (henv f)

theorem flatten_map_workerLoop (step : FileTask → FileTask) (P : List (List FileTask)) :
    (P.map (fun w => workerLoop step (w.map some ++ [none]))).flatten = P.flatten.map step := by
  induction P with
  | nil => rfl
  | cons w Q ih =>
    simp only [List.map_cons, List.flatten_cons, ih, List.map_append]
    rw [show (w.map some ++ [none]) = (w.map some ++ none :: []) from rfl, workerLoop_eq]

theorem flatten_map_map (g : FileTask → FileTask) (P : List (List FileTask)) :
    (P.map (fun w => w.map g)).flatten = P.flatten.map g := by
  induction P with
  | nil => rfl
  | cons w Q ih => simp only [List.map_cons, List.flatten_cons, ih, List.map_append]

theorem stageRun_perm (step : FileTask → FileTask) (k : Nat) (ts out : List FileTask)
    (h : StageRun step k ts out) : List.Perm out (ts.map step) := by
  obtain ⟨P, hk, hperm, hout⟩ := h
  rw [flatten_map_workerLoop] at hout
  exact hout.trans (hperm.map step)

theorem forall2_workerLoopE (step : FileTask → Except Str FileTask) (g : FileTask → FileTask)
    (P outs : List (List FileTask))
    (hfa : List.Forall₂
      (fun w o => workerLoopE step (w.map some ++ [none]) = Except.ok o) P outs)
    (hok : ∀ f ∈ P.flatten, step f = Except.ok (g f)) :
    outs = P.map (fun w => w.map g) := by
  induction hfa with
  | nil => rfl
  | @cons w o P2 outs2 hw hrest ih =>
    have hmem : ∀ f ∈ w, step f = Except.ok (g f) := by
      intro f hf
      exact hok f (by simp [hf])
    have hw2 : workerLoopE step (w.map some ++ [none]) = Except.ok (w.map g) := by
      rw [show (w.map some ++ [none]) = (w.map some ++ none :: []) from rfl]
      exact workerLoopE_ok step g w [] hmem
    rw [hw2] at hw
    injection hw with hw
    have hok2 : ∀ f ∈ P2.flatten, step f = Except.ok (g f) := by
      intro f hf
      exact hok f (by simp [hf])
    rw [List.map_cons, ← hw, ih hok2]

theorem stageRunE_perm (step : FileTask → Except Str FileTask) (g : FileTask → FileTask)
    (k : Nat) (ts out : List FileTask) (h : StageRunE step k ts out)
    (hok : ∀ f ∈ ts, step f = Except.ok (g f)) : List.Perm out (ts.map g) := by
  obtain ⟨P, outs, hk, hperm, hfa, hout⟩ := h
  have hokP : ∀ f ∈ P.flatten, step f = Except.ok (g f) := fun f hf =>
    hok f (hperm.mem_iff.mp hf)
  rw [forall2_workerLoopE step g P outs hfa hokP, flatten_map_map] at hout
  exact hout.trans (hperm.map g)

def wTm : Tm := ⟨2025, 10, 12, 14, 30, 45⟩

def wEnv : FileTask → Tm × Nat := fun _ => (wTm, 7)

def wTask : FileTask := initialFile 1 "file_100.pdf" "project1/uuid1" "100" "project1"

theorem wEnv_bound : ∀ f, (wEnv f).2 < 2 ^ 128 := fun _ => by norm_num [wEnv]

theorem pipelineRun_exists (env : FileTask → Tm × Nat) (henv : ∀ f, (env f).2 < 2 ^ 128)
    (files : List FileTask) :
    PipelineRun env files ((files.map (s3Step env)).map apiOkStep) := by
  refine ⟨files.map (s3Step env), ⟨[files, [], []], rfl, ?_, ?_⟩,
    ⟨[files.map (s3Step env), []], [(files.map (s3Step env)).map apiOkStep, []], rfl, ?_, ?_,
      ?_⟩⟩
  · have h : ([files, [], []] : List (List FileTask)).flatten = files := by simp
    rw [h]
  · rw [flatten_map_workerLoop]
    have h : ([files, [], []] : List (List FileTask)).flatten = files := by simp
    rw [h]
  · have h : ([files.map (s3Step env), []] : List (List FileTask)).flatten =
        files.map (s3Step env) := by simp
    rw [h]
  · refine List.Forall₂.cons ?_ (List.Forall₂.cons ?_ List.Forall₂.nil)
    · rw [show ((files.map (s3Step env)).map some ++ [none]) =
        ((files.map (s3Step env)).map some ++ none :: []) from rfl]
      refine workerLoopE_ok apiProcessOne apiOkStep _ [] ?_
      intro f hf
      obtain ⟨f0, _, rfl⟩ := List.mem_map.mp hf
      exact apiProcessOne_ok_of_parse _ _ (s3Step_good env henv f0)
    · rfl
  · have h : ([(files.map (s3Step env)).map apiOkStep, []] : List (List FileTask)).flatten =
        (files.map (s3Step env)).map apiOkStep := by simp
    rw [h]

/-- C1: In any complete pipeline run over N initial tasks (each enqueued exactly once by
the dispatcher, no sentinel miscount), the verifier's final report has processed count
equal to N, successes equal to the number of received tasks whose status is the terminal
success status API_UPLOADED (the spec's REGISTERED), failures equal to the number of
received tasks with any other status, and missing count equal to N minus processed
(which is 0); the verifier's drain loop collects exactly the received tasks before its
single sentinel. -/
theorem verifier_report_counts (env : FileTask → Tm × Nat) (files received : List FileTask)
    (henv : ∀ f, (env f).2 < 2 ^ 128) (hrun : PipelineRun env files received) :
    (verifier files.length received).processed = files.length ∧
    (verifier files.length received).success = (received.filter isSuccessStatus).length ∧
    (verifier files.length received).failed =
      (received.filter (fun f => !(isSuccessStatus f))).length ∧
    (verifier files.length received).missing =
      files.length - (verifier files.length received).processed ∧
    (verifier files.length received).missing = 0 ∧
    drainUntilDone (received.map some ++ [none]) = received := by
  obtain ⟨mid, hs3, hapi⟩ := hrun
  have hmid : List.Perm mid (files.map (s3Step env)) := stageRun_perm _ _ _ _ hs3
  have hok : ∀ x ∈ mid, apiProcessOne x = Except.ok (apiOkStep x) := by
    intro x hx
    obtain ⟨f, _, rfl⟩ := List.mem_map.mp (hmid.mem_iff.mp hx)
    exact apiProcessOne_ok_of_parse _ _ (s3Step_good env henv f)
  have hrec : List.Perm received (mid.map apiOkStep) := stageRunE_perm _ _ _ _ _ hapi hok
  have hlen : received.length = files.length := by
    rw [hrec.length_eq, List.length_map, hmid.length_eq, List.length_map]
  refine ⟨hlen, rfl, rfl, rfl, ?_, ?_⟩
  · show files.length - received.length = 0
    omega
  · rw [show (received.map some ++ [none]) = (received.map some ++ none :: []) from rfl]
    exact drainUntilDone_eq received []

/-- C1 witness: a concrete one-task run through the pipeline. -/
theorem verifier_report_counts_witness :
    (verifier 1 (([wTask].map (s3Step wEnv)).map apiOkStep)).processed = 1 ∧
    (verifier 1 (([wTask].map (s3Step wEnv)).map apiOkStep)).missing = 0 := by
  have h := verifier_report_counts wEnv [wTask] (([wTask].map (s3Step wEnv)).map apiOkStep)
    wEnv_bound (pipelineRun_exists wEnv wEnv_bound [wTask])
  exact ⟨h.1, h.2.2.2.2.1⟩

/-- C2: In the module-level shutdown sequence, a stage's queue receives sentinels only
after the upstream stage has been joined (no sentinel put precedes the upstream join in
the trace), the number of sentinels enqueued equals the pool's worker count (3 for the
s3 pool, 2 for the api pool, exactly 1 for the single verifier), and a worker loop
consumes exactly one sentinel, terminating immediately when it dequeues it. -/
theorem shutdown_sentinel_protocol :
    shutdownTrace.count (Event.putDone QueueId.s3q) = s3_workers.length ∧
    s3_workers.length = 3 ∧
    shutdownTrace.count (Event.putDone QueueId.apiq) = api_workers.length ∧
    api_workers.length = 2 ∧
    shutdownTrace.count (Event.putDone QueueId.verifyq) = 1 ∧
    (shutdownTrace.takeWhile (fun e => !(e == Event.joinDispatcher))).count
      (Event.putDone QueueId.s3q) = 0 ∧
    (shutdownTrace.takeWhile (fun e => !(e == Event.joinPoolS3))).count
      (Event.putDone QueueId.apiq) = 0 ∧
    (shutdownTrace.takeWhile (fun e => !(e == Event.joinPoolApi))).count
      (Event.putDone QueueId.verifyq) = 0 ∧
    (∀ (step : FileTask → FileTask) (ts : List FileTask) (rest : List QItem),
      workerLoop step (ts.map some ++ none :: rest) = ts.map step) ∧
    (∀ (ts : List FileTask) (rest : List QItem),
      consumedItems (ts.map some ++ none :: rest) = ts.map some ++ [none] ∧
      (consumedItems (ts.map some ++ none :: rest)).count none = 1) := by
  refine ⟨by decide, by decide, by decide, by decide, by decide, by decide, by decide,
    by decide, workerLoop_eq, ?_⟩
  intro ts rest
  exact ⟨consumedItems_eq ts rest, consumedItems_one_none ts rest⟩

/-- C8: With an empty initial collection the dispatcher enqueues nothing and the
shutdown protocol still yields a complete, cleanly terminating run; a complete run
also exists for every initial list, including N far larger than the pool sizes, with
no task lost; and every worker's loop terminates after consuming exactly one
sentinel. -/
theorem pipeline_terminates (env : FileTask → Tm × Nat) (henv : ∀ f, (env f).2 < 2 ^ 128) :
    (dispatcher [] = [] ∧ PipelineRun env [] []) ∧
    (∀ files : List FileTask, ∃ received, PipelineRun env files received ∧
      received.length = files.length) ∧
    (∀ (step : FileTask → FileTask) (ts : List FileTask),
      workerLoop step (ts.map some ++ [none]) = ts.map step ∧
      (consumedItems (ts.map some ++ [none])).count none = 1) := by
  refine ⟨⟨rfl, pipelineRun_exists env henv []⟩, ?_, ?_⟩
  · intro files
    exact ⟨_, pipelineRun_exists env henv files, by simp⟩
  · intro step ts
    rw [show (ts.map some ++ [none]) = (ts.map some ++ none :: []) from rfl]
    exact ⟨workerLoop_eq step ts [], consumedItems_one_none ts []⟩

/-- C8 witness: the empty run and a run over the 8-task FILES table (8 tasks against
pool sizes 3 and 2). -/
theorem pipeline_terminates_witness :
    (dispatcher [] = [] ∧ PipelineRun wEnv [] []) ∧
    (∃ received, PipelineRun wEnv FILES received ∧ received.length = FILES.length) := by
  have h := pipeline_terminates wEnv wEnv_bound
  exact ⟨h.1, h.2.1 FILES⟩

/-- C3 counterexample: a task whose registration call fails (its dest_key holds no
parseable UUID) is not caught, not marked FAILED and not forwarded: the api worker
body raises ValueError and the worker loop aborts with that error, producing no
output for the verify queue. -/
theorem api_worker_crash_cex :
    apiProcessOne (initialFile 1 "file_100.pdf" "project1/uuid1" "100" "project1") =
      Except.error (strOf "ValueError") ∧
    workerLoopE apiProcessOne
      [some (initialFile 1 "file_100.pdf" "project1/uuid1" "100" "project1"), none] =
      Except.error (strOf "ValueError") := by
  constructor
  · rfl
  · rfl

/-- C3 amended: the workers do not catch per-task collaborator failures; the transfer
collaborator is a simulation that cannot fail, and a metadata-stage registration
failure (ValueError from UUID-parsing the dest_key) propagates uncaught: the worker
loop terminates with the error, the task is never marked FAILED and never reaches the
verify queue. -/
theorem api_failure_uncaught (f : FileTask) (rest : List QItem)
    (hf : pyUUID (pyRsplitLast '/' f.dest_key) = none) :
    apiProcessOne f = Except.error (strOf "ValueError") ∧
    workerLoopE apiProcessOne (some f :: rest) = Except.error (strOf "ValueError") := by
  have h1 := apiProcessOne_error_of_parse f hf
  refine ⟨h1, ?_⟩
  simp only [workerLoopE]
  rw [h1]

/-- C3 amended witness: the second FILES entry, fed directly to the api stage with its
initial empty dest_key. -/
theorem api_failure_uncaught_witness :
    pyUUID (pyRsplitLast '/'
      (initialFile 2 "file_101.pdf" "project1/uuid2" "101" "project1").dest_key) = none ∧
    workerLoopE apiProcessOne
      [some (initialFile 2 "file_101.pdf" "project1/uuid2" "101" "project1")] =
      Except.error (strOf "ValueError") := by
  refine ⟨rfl, ?_⟩
  exact (api_failure_uncaught (initialFile 2 "file_101.pdf" "project1/uuid2" "101" "project1")
    [] rfl).2

/-- C4: For a task whose dest_key was produced by the transfer stage, the api stage
stores as upload_id exactly the UUID whose canonical string is the last '/'-delimited
segment of the dest_key: registration echoes the transfer-time identity rather than
minting a new one. -/
theorem upload_id_echoes_dest_key_uuid (t : Tm) (u : Nat) (f : FileTask)
    (hu : u < 2 ^ 128) (hk : f.dest_key = copy_file_s3_s3 t u) :
    pyRsplitLast '/' f.dest_key = uuidCanonical u ∧
    upload_file_to_api f = Except.ok u ∧
    apiProcessOne f = Except.ok (apiOkStep f) ∧
    (apiOkStep f).upload_id = UploadId.uuid u := by
  have h1 : pyRsplitLast '/' f.dest_key = uuidCanonical u := by
    rw [hk]
    exact pyRsplitLast_copy t u
  have h2 : pyUUID (pyRsplitLast '/' f.dest_key) = some u := by
    rw [h1]
    exact pyUUID_uuidCanonical u hu
  refine ⟨h1, ?_, apiProcessOne_ok_of_parse f u h2, apiOkStep_upload_id f u h2⟩
  unfold upload_file_to_api
  rw [h2]

/-- C4 witness: a concrete task carrying a transfer-generated dest_key. -/
theorem upload_id_echoes_dest_key_uuid_witness :
    (apiOkStep { wTask with dest_key := copy_file_s3_s3 wTm 7 }).upload_id =
      UploadId.uuid 7 :=
  (upload_id_echoes_dest_key_uuid wTm 7 { wTask with dest_key := copy_file_s3_s3 wTm 7 }
    (by norm_num) rfl).2.2.2

/-- C5: Every destination key returned by the transfer stage's key generator has
exactly 7 '/'-delimited segments; the first 6 parse back (strptime-style) to exactly
the sampled local time, which lies within the call interval; and the 7th segment is a
canonical hyphenated UUID string. -/
theorem dest_key_format (t : Tm) (u : Nat) (startT endT : Tm)
    (hv : TmValid t) (_hu : u < 2 ^ 128) (h1 : tmLe startT t) (h2 : tmLe t endT) :
    (splitOnChar '/' (copy_file_s3_s3 t u)).length = 7 ∧
    parseTimestamp ((splitOnChar '/' (copy_file_s3_s3 t u)).take 6) = some t ∧
    tmLe startT t ∧ tmLe t endT ∧
    isCanonicalUUIDStr ((splitOnChar '/' (copy_file_s3_s3 t u)).getD 6 []) = true := by
  rw [split_copy]
  exact ⟨rfl, parseTimestamp_strf t hv, h1, h2, isCanonicalUUIDStr_canon u⟩

/-- C5 witness: a concrete generated key. -/
theorem dest_key_format_witness :
    parseTimestamp ((splitOnChar '/' (copy_file_s3_s3 wTm 7)).take 6) = some wTm ∧
    isCanonicalUUIDStr ((splitOnChar '/' (copy_file_s3_s3 wTm 7)).getD 6 []) = true := by
  have h := dest_key_format wTm 7 wTm wTm (by decide) (by norm_num) (le_refl _) (le_refl _)
  exact ⟨h.2.1, h.2.2.2.2⟩

/-- C6: Destination keys built from pairwise-distinct freshly drawn unique identifiers
are pairwise distinct within a run (even under equal timestamps or repeated source
locations), and two runs whose identifier draws are disjoint produce disjoint key
sets. -/
theorem dest_keys_distinct :
    (∀ (t1 t2 : Tm) (u1 u2 : Nat), u1 < 2 ^ 128 → u2 < 2 ^ 128 → u1 ≠ u2 →
      copy_file_s3_s3 t1 u1 ≠ copy_file_s3_s3 t2 u2) ∧
    (∀ draws : List (Tm × Nat), (∀ p ∈ draws, p.2 < 2 ^ 128) →
      draws.Pairwise (fun p q => p.2 ≠ q.2) →
      (draws.map (fun p => copy_file_s3_s3 p.1 p.2)).Pairwise (fun a b => a ≠ b)) ∧
    (∀ draws1 draws2 : List (Tm × Nat), (∀ p ∈ draws1, p.2 < 2 ^ 128) →
      (∀ p ∈ draws2, p.2 < 2 ^ 128) →
      (∀ p ∈ draws1, ∀ q ∈ draws2, p.2 ≠ q.2) →
      ∀ k ∈ draws1.map (fun p => copy_file_s3_s3 p.1 p.2),
        k ∉ draws2.map (fun p => copy_file_s3_s3 p.1 p.2)) := by
  have hinj : ∀ (t1 t2 : Tm) (u1 u2 : Nat), u1 < 2 ^ 128 → u2 < 2 ^ 128 →
      copy_file_s3_s3 t1 u1 = copy_file_s3_s3 t2 u2 → u1 = u2 := by
    intro t1 t2 u1 u2 hu1 hu2 h
    have e1 := pyRsplitLast_copy t1 u1
    have e2 := pyRsplitLast_copy t2 u2
    rw [h] at e1
    exact uuidCanonical_inj u1 u2 hu1 hu2 (e1.symm.trans e2)
  refine ⟨fun t1 t2 u1 u2 hu1 hu2 hne h => hne (hinj t1 t2 u1 u2 hu1 hu2 h), ?_, ?_⟩
  · intro draws hb hpw
    rw [List.pairwise_map]
    refine hpw.imp_of_mem ?_
    intro p q hp hq hne heq
    exact hne (hinj p.1 q.1 p.2 q.2 (hb p hp) (hb q hq) heq)
  · intro draws1 draws2 hb1 hb2 hdisj k hk1 hk2
    obtain ⟨p, hp, hpk⟩ := List.mem_map.mp hk1
    obtain ⟨q, hq, hqk⟩ := List.mem_map.mp hk2
    exact hdisj p hp q hq (hinj p.1 q.1 p.2 q.2 (hb1 p hp) (hb2 q hq) (hpk.trans hqk.symm))

/-- C6 witness: two concrete distinct draws at the same timestamp. -/
theorem dest_keys_distinct_witness : copy_file_s3_s3 wTm 7 ≠ copy_file_s3_s3 wTm 8 :=
  dest_keys_distinct.1 wTm wTm 7 8 (by norm_num) (by norm_num) (by decide)

/-- C7: Statuses stay on the forward chain READY, S3_COPIED (the spec's TRANSFERRED),
API_UPLOADED (the spec's REGISTERED): every initial task starts READY, the transfer
stage always writes S3_COPIED, the metadata stage always writes API_UPLOADED, and the
stage transitions strictly increase the chain rank; in this embedding a task is held
by exactly one queue or worker at a time, so each transition has a single writer. -/
theorem status_chain_monotonic :
    (∀ f ∈ FILES, f.status = strOf "READY") ∧
    (∀ (env : FileTask → Tm × Nat) (f : FileTask),
      (s3Step env f).status = strOf "S3_COPIED") ∧
    (∀ f g : FileTask, apiProcessOne f = Except.ok g → g.status = strOf "API_UPLOADED") ∧
    (∀ (env : FileTask → Tm × Nat) (f g : FileTask), f.status = strOf "READY" →
      apiProcessOne (s3Step env f) = Except.ok g →
      statusRank f.status < statusRank (s3Step env f).status ∧
      statusRank (s3Step env f).status < statusRank g.status) := by
  refine ⟨by decide, fun env f => rfl, ?_, ?_⟩
  · intro f g h
    rw [apiProcessOne_ok_shape f g h]
    rfl
  · intro env f g hready hok
    rw [apiProcessOne_ok_shape _ _ hok, hready]
    constructor
    · show statusRank (strOf "READY") < statusRank (strOf "S3_COPIED")
      decide
    · show statusRank (strOf "S3_COPIED") < statusRank (strOf "API_UPLOADED")
      decide

/-- C7 witness: the chain on a concrete task pushed through both stages. -/
theorem status_chain_monotonic_witness :
    statusRank wTask.status < statusRank (s3Step wEnv wTask).status ∧
    statusRank (s3Step wEnv wTask).status <
      statusRank (apiOkStep (s3Step wEnv wTask)).status :=
  status_chain_monotonic.2.2.2 wEnv wTask (apiOkStep (s3Step wEnv wTask)) rfl
    (apiProcessOne_ok_of_parse _ _ (s3Step_good wEnv wEnv_bound wTask))

/-- C9: upload_file_to_api depends on the task's dest_key alone; it returns the UUID
parsed from the substring after the last '/' when that substring is a valid UUID
string, and raises ValueError otherwise, in particular on the initial empty
dest_key. -/
theorem upload_file_to_api_contract :
    (∀ f1 f2 : FileTask, f1.dest_key = f2.dest_key →
      upload_file_to_api f1 = upload_file_to_api f2) ∧
    (∀ (f : FileTask) (u : Nat), u < 2 ^ 128 →
      pyRsplitLast '/' f.dest_key = uuidCanonical u → upload_file_to_api f = Except.ok u) ∧
    (∀ f : FileTask, pyUUID (pyRsplitLast '/' f.dest_key) = none →
      upload_file_to_api f = Except.error (strOf "ValueError")) ∧
    (∀ f : FileTask, f.dest_key = [] →
      upload_file_to_api f = Except.error (strOf "ValueError")) := by
  have herr : ∀ f : FileTask, pyUUID (pyRsplitLast '/' f.dest_key) = none →
      upload_file_to_api f = Except.error (strOf "ValueError") := by
    intro f h
    unfold upload_file_to_api
    rw [h]
  refine ⟨?_, ?_, herr, ?_⟩
  · intro f1 f2 h
    unfold upload_file_to_api
    rw [h]
  · intro f u hu hk
    unfold upload_file_to_api
    rw [hk, pyUUID_uuidCanonical u hu]
  · intro f h
    apply herr
    rw [h]
    rfl

/-- C9 witness: two tasks agreeing only on dest_key give equal results, and the first
FILES entry (empty dest_key) raises. -/
theorem upload_file_to_api_contract_witness :
    upload_file_to_api (initialFile 1 "file_100.pdf" "project1/uuid1" "100" "project1") =
      upload_file_to_api (initialFile 3 "other.pdf" "p9/k9" "999" "project9") ∧
    upload_file_to_api wTask = Except.error (strOf "ValueError") :=
  ⟨upload_file_to_api_contract.1 _ _ rfl, upload_file_to_api_contract.2.2.2 wTask rfl⟩

/-- C10: The transfer stage mutates only dest_key and status, the metadata stage
mutates only status and upload_id; id, name, src_bucket, src_key, dest_bucket and
meta reach the verifier with their dispatch-time values. -/
theorem stage_frame_conditions :
    (∀ (env : FileTask → Tm × Nat) (f : FileTask),
      (s3Step env f).id = f.id ∧ (s3Step env f).name = f.name ∧
      (s3Step env f).src_bucket = f.src_bucket ∧ (s3Step env f).src_key = f.src_key ∧
      (s3Step env f).dest_bucket = f.dest_bucket ∧ (s3Step env f).meta = f.meta ∧
      (s3Step env f).upload_id = f.upload_id) ∧
    (∀ f g : FileTask, apiProcessOne f = Except.ok g →
      g.id = f.id ∧ g.name = f.name ∧ g.src_bucket = f.src_bucket ∧
      g.src_key = f.src_key ∧ g.dest_bucket = f.dest_bucket ∧ g.dest_key = f.dest_key ∧
      g.meta = f.meta) ∧
    (∀ (env : FileTask → Tm × Nat) (f g : FileTask),
      apiProcessOne (s3Step env f) = Except.ok g →
      g.id = f.id ∧ g.name = f.name ∧ g.src_bucket = f.src_bucket ∧
      g.src_key = f.src_key ∧ g.dest_bucket = f.dest_bucket ∧ g.meta = f.meta) := by
  refine ⟨fun env f => ⟨rfl, rfl, rfl, rfl, rfl, rfl, rfl⟩, ?_, ?_⟩
  · intro f g h
    rw [apiProcessOne_ok_shape f g h]
    exact ⟨rfl, rfl, rfl, rfl, rfl, rfl, rfl⟩
  · intro env f g h
    rw [apiProcessOne_ok_shape _ _ h]
    exact ⟨rfl, rfl, rfl, rfl, rfl, rfl⟩

/-- C10 witness: a concrete task through both stages keeps its dispatch fields. -/
theorem stage_frame_conditions_witness :
    (apiOkStep (s3Step wEnv wTask)).id = wTask.id ∧
    (apiOkStep (s3Step wEnv wTask)).meta = wTask.meta := by
  have h := stage_frame_conditions.2.2 wEnv wTask (apiOkStep (s3Step wEnv wTask))
    (apiProcessOne_ok_of_parse _ _ (s3Step_good wEnv wEnv_bound wTask))
  exact ⟨h.1, h.2.2.2.2.2⟩
